import Mathlib

/-!
Verification development for the `ts-explicit-errors` library
(`src/index.ts`, bare-union `Result` variant).

We shallowly embed the runtime data the library manipulates:

* `JsPrim` — the primitive JavaScript values that appear as context entries
  and thrown values (strings, integers, booleans, `null`, `undefined`).
* `JsError` — a JavaScript `Error` object: `name`, `message`, an optional
  `context` map (only meaningful on `CtxError` instances), an optional
  `cause` (the constructors of the library only ever store `Error` values
  in `cause`, so the field is `Option JsError`; a non-`Error` cause is
  treated as absent exactly as every traversal in the source does via its
  `instanceof Error` checks), and an optional `stack` string.  The Boolean
  `isCtx` field models `instanceof CtxError`.
* `JsVal` — a runtime value: a primitive or an error object.

Context objects (`Record<string, unknown>`) are modelled as association
lists with JavaScript object semantics: `Object.hasOwn` is key membership,
indexing returns the first binding (keys of real JS objects are unique),
and spread-merge `\x7b ...a, ...b \x7d` keeps `a`'s key order with `b`'s
values winning on collision, followed by `b`'s new keys.
-/

namespace TsExplicitErrors

/-- Primitive JavaScript values used as context entries and thrown values. -/
inductive JsPrim where
  | str (s : String)
  | num (n : Int)
  | boolean (b : Bool)
  | null
  | undef
deriving DecidableEq, Repr

/-- A JavaScript object `Record<string, unknown>` as an association list. -/
abbrev Context := List (String × JsPrim)

/-- JavaScript `Object.hasOwn(m, k)`. -/
def Context.hasOwn (m : Context) (k : String) : Bool :=
  m.any (fun p => p.1 == k)

/-- JavaScript property read `m[k]` (returns `undefined` when absent). -/
def Context.getVal (m : Context) (k : String) : JsPrim :=
  match m.find? (fun p => p.1 == k) with
  | some p => p.2
  | none => JsPrim.undef

/-- JavaScript object spread `\x7b ...a, ...b \x7d`: existing keys keep their
position but take `b`'s value when `b` also binds them; keys only in `b`
are appended in `b`'s order. -/
def Context.merge (a b : Context) : Context :=
  (a.map (fun p => if b.hasOwn p.1 then (p.1, b.getVal p.1) else p)) ++
    b.filter (fun p => !(a.hasOwn p.1))

/-- A JavaScript `Error` object (`CtxError` instances carry `isCtx := true`,
modelling `instanceof CtxError`). -/
inductive JsError where
  | mk (isCtx : Bool) (name : String) (message : String)
      (context : Option Context) (cause : Option JsError) (stack : Option String)

/-- The `instanceof CtxError` test. -/
def JsError.isCtx : JsError → Bool
  | .mk b _ _ _ _ _ => b

/-- The `name` property. -/
def JsError.name : JsError → String
  | .mk _ n _ _ _ _ => n

/-- The `message` property. -/
def JsError.message : JsError → String
  | .mk _ _ m _ _ _ => m

/-- The `context` property. -/
def JsError.context : JsError → Option Context
  | .mk _ _ _ c _ _ => c

/-- The `cause` property. -/
def JsError.cause : JsError → Option JsError
  | .mk _ _ _ _ cz _ => cz

/-- The `stack` property. -/
def JsError.stack : JsError → Option String
  | .mk _ _ _ _ _ st => st

/-- A runtime JavaScript value: a primitive or an error object. -/
inductive JsVal where
  | prim (p : JsPrim)
  | error (e : JsError)

/-- JavaScript `String(v)` on primitives. -/
def JsPrim.toJsString : JsPrim → String
  | .str s => s
  | .num n => toString n
  | .boolean b => if b then "true" else "false"
  | .null => "null"
  | .undef => "undefined"

/-- `Error.prototype.toString`. -/
def JsError.toJsString (e : JsError) : String :=
  if e.name = "" then e.message
  else if e.message = "" then e.name
  else e.name ++ ": " ++ e.message

/-- JavaScript `String(v)`. -/
def jsString : JsVal → String
  | .prim p => p.toJsString
  | .error e => e.toJsString

/-- `new Error(message)` (stack capture is not modelled: `stack := none`). -/
def newBaseError (message : String) : JsError :=
  JsError.mk false "Error" message none none none

/-- The `CtxError` constructor
`new CtxError(message, options?, errorToConvert?)` from `src/index.ts`.
When `errorToConvert` is given, `name`/`message` are copied from it, its
`cause` is copied when it is an `Error` (always so in this model), and its
`stack` is copied when truthy (non-empty); `message` and `options` are
ignored.  Otherwise `name` is the discriminator tag `"CtxError"` and
`cause` comes from `options`. -/
def newCtxError (message : String) (optionsCause : Option JsError)
    (errorToConvert : Option JsError) : JsError :=
  match errorToConvert with
  | some src =>
      JsError.mk true src.name src.message none src.cause
        (match src.stack with
         | some s => if s = "" then none else some s
         | none => none)
  | none => JsError.mk true "CtxError" message none optionsCause none

/-- `err(message, cause)` from `src/index.ts`
(`cause ? new CtxError(message, { cause }) : new CtxError(message)`;
an `Error` object is always truthy). -/
def err (message : String) (cause : Option JsError) : JsError :=
  match cause with
  | some c => newCtxError message (some c) none
  | none => newCtxError message none none

/-- `isErr(result)`: `result instanceof CtxError`. -/
def isErr : JsVal → Bool
  | .error e => e.isCtx
  | .prim _ => false

/-- The helper `convertUnknownErrorToCtxError` inside `attempt`:
`error instanceof Error ? error : new Error(String(error))`, then
`new CtxError("", \x7b\x7d, newError)`. -/
def convertUnknownErrorToCtxError (v : JsVal) : JsError :=
  let newError :=
    match v with
    | .error e => e
    | .prim p => newBaseError (jsString (.prim p))
  newCtxError "" none (some newError)

/-- How a run of the operation handed to `attempt` can go.  `ret` is a
normal completion with a non-thenable value (`isPromiseLike` false),
`retThenable` a normal completion with a thenable that later resolves or
rejects, `thrown` a synchronous throw. -/
inductive PromiseOutcome where
  | resolved (v : JsVal)
  | rejected (v : JsVal)

/-- Outcome of invoking the zero-argument operation given to `attempt`. -/
inductive Outcome where
  | ret (v : JsVal)
  | retThenable (p : PromiseOutcome)
  | thrown (v : JsVal)

/-- The value `attempt` hands back: a synchronous `Result<T>` or a
`Promise<Result<T>>` (modelled by its eventual settled value). -/
inductive AttemptResult where
  | sync (r : JsVal)
  | async (r : JsVal)

/-- `attempt(fn)` from `src/index.ts`: run `fn`; a synchronous throw is
caught and converted; a returned thenable is piped through
`.then(value => value).catch(convertUnknownErrorToCtxError)`;
anything else is returned as-is. -/
def attempt : Outcome → AttemptResult
  | .ret v => .sync v
  | .retThenable (.resolved v) => .async v
  | .retThenable (.rejected v) => .async (.error (convertUnknownErrorToCtxError v))
  | .thrown v => .sync (.error (convertUnknownErrorToCtxError v))

/-- `ctx(context)`: `this.context = \x7b ...this.context, ...context \x7d;
return this` (spreading an `undefined` context spreads nothing). -/
def JsError.ctx (e : JsError) (context : Context) : JsError :=
  JsError.mk e.isCtx e.name e.message
    (some (Context.merge (e.context.getD []) context)) e.cause e.stack

/-- `errWithCtx(defaultContext)`: an `err` that immediately attaches the
default context. -/
def errWithCtx (defaultContext : Context) (message : String)
    (cause : Option JsError) : JsError :=
  (err message cause).ctx defaultContext

/-- The own-context lookup in `CtxError.get`:
`if (this.context && Object.hasOwn(this.context, key)) return this.context[key]`,
falling through to `undefined`. -/
def ownContextGet (ctx : Option Context) (key : String) : JsPrim :=
  match ctx with
  | some m => if m.hasOwn key then m.getVal key else JsPrim.undef
  | none => JsPrim.undef

/-- `CtxError.get(key)`: recursively query the cause first when it is a
`CtxError`; a defined (non-`undefined`) deep value wins; otherwise fall
back to the own context. -/
def JsError.get : JsError → String → JsPrim
  | .mk _ _ _ ctx (some c) _, key =>
      if c.isCtx then
        let deepestValue := JsError.get c key
        if deepestValue ≠ JsPrim.undef then deepestValue else ownContextGet ctx key
      else ownContextGet ctx key
  | .mk _ _ _ ctx none _, key => ownContextGet ctx key

/-- `CtxError.getAll(key)`: push the own value when the key exists, then
append the cause's `getAll` when the cause is a `CtxError`. -/
def JsError.getAll : JsError → String → List JsPrim
  | .mk _ _ _ ctx (some c) _, key =>
      (match ctx with
       | some m => if m.hasOwn key then [m.getVal key] else []
       | none => []) ++
      (if c.isCtx then JsError.getAll c key else [])
  | .mk _ _ _ ctx none _, key =>
      match ctx with
      | some m => if m.hasOwn key then [m.getVal key] else []
      | none => []

/-- `#prependErrorNameToMessage(error)`: show the name as a message
heading exactly when it is neither `"Error"` nor `"CtxError"`. -/
def prependErrorNameToMessage (e : JsError) : String :=
  let shouldShowName := e.name != "Error" && e.name != "CtxError"
  let pfx := if shouldShowName then e.name ++ ": " else ""
  pfx ++ e.message

/-- An error together with the errors below it in the cause chain (the
loop of `messageChain` steps through
`currentCause.cause instanceof Error ? currentCause.cause : undefined`,
which the `Option JsError` cause field models directly). -/
def JsError.selfAndCauses : JsError → List JsError
  | .mk b n m c (some cz) st => JsError.mk b n m c (some cz) st :: JsError.selfAndCauses cz
  | e => [e]

/-- The errors visited by the `while (currentCause)` loop of
`messageChain`, starting from a `cause` field. -/
def causeLinks : Option JsError → List JsError
  | none => []
  | some c => c.selfAndCauses

/-- The raw `messages` list built by `messageChain`: the own message
followed by each cause's name-prefixed message. -/
def msgChainSegments (e : JsError) : List String :=
  e.message :: (causeLinks e.cause).map prependErrorNameToMessage

/-- JavaScript `String.prototype.trim()`: strip leading and trailing
whitespace (modelled over the character list). -/
def jsTrim (s : String) : String :=
  String.mk (((s.data.dropWhile Char.isWhitespace).reverse.dropWhile
    Char.isWhitespace).reverse)

/-- JavaScript `Array.prototype.join(sep)`. -/
def joinSep (sep : String) : List String → String
  | [] => ""
  | [s] => s
  | s :: rest => s ++ sep ++ joinSep sep rest

/-- `CtxError.messageChain`: trim every segment, drop the blank ones, join
with `" -> "`, and fall back to `"Unknown error"` when nothing is left. -/
def JsError.messageChain (e : JsError) : String :=
  let messages := msgChainSegments e
  let filteredMessages := (messages.map jsTrim).filter (fun s => s != "")
  if filteredMessages.isEmpty then "Unknown error" else joinSep " -> " filteredMessages

/-- The result object of `filterMap`: the `values` array and the `errors`
array, the latter `undefined` (`none`) when no error occurred. -/
structure FilterMapResult where
  values : List JsVal
  errors : Option (List JsError)

/-- One step of the partition performed by `filterMap`'s filter callback:
`undefined` is dropped, a `CtxError` goes to the error accumulator,
anything else is kept. -/
def filterMapStep (item : JsVal) (acc : List JsVal × List JsError) :
    List JsVal × List JsError :=
  match item with
  | .prim .undef => acc
  | .error e => if e.isCtx then (acc.1, e :: acc.2) else (JsVal.error e :: acc.1, acc.2)
  | v => (v :: acc.1, acc.2)

/-- `handleItems` inside `filterMap`: one left-to-right pass splitting the
mapped items into `values` and `errors`, with `errors` set to `undefined`
when empty. -/
def handleItems (awaitedItems : List JsVal) : FilterMapResult :=
  let p := awaitedItems.foldr filterMapStep ([], [])
  ⟨p.1, if p.2.length > 0 then some p.2 else none⟩

/-- `items.map((item, index) => fn(item, index))`. -/
def mapWithIndex (fn : JsVal → Nat → JsVal) : List JsVal → Nat → List JsVal
  | [], _ => []
  | x :: xs, i => fn x i :: mapWithIndex fn xs (i + 1)

/-- `filterMap(items, fn)` (synchronous path; the asynchronous path runs
the same `handleItems` on the awaited results). -/
def filterMap (items : List JsVal) (fn : JsVal → Nat → JsVal) : FilterMapResult :=
  handleItems (mapWithIndex fn items 0)

/-- Specification helper: the chain links visited by the context-retrieval
operations — this error, then causes for as long as they are `CtxError`s. -/
def JsError.ctxChain : JsError → List JsError
  | .mk b n m ctx (some c) st =>
      JsError.mk b n m ctx (some c) st :: (if c.isCtx then JsError.ctxChain c else [])
  | e => [e]

/-- Specification helper: the own-context entry of a chain link, `none`
when the key does not exist (distinct from an existing `undefined`). -/
def JsError.ownEntry (e : JsError) (key : String) : Option JsPrim :=
  match e.context with
  | some m => if m.hasOwn key then some (m.getVal key) else none
  | none => none

/-- Specification helper: the first defined (non-`undefined`) value of a
list, or `undefined`. -/
def firstDefined : List JsPrim → JsPrim
  | [] => JsPrim.undef
  | v :: vs => if v ≠ JsPrim.undef then v else firstDefined vs

/-- Length of the cause chain, used for induction. -/
def JsError.depth : JsError → Nat
  | .mk _ _ _ _ (some c) _ => JsError.depth c + 1
  | .mk _ _ _ _ none _ => 0

/-- The `item === undefined` test in `filterMap`'s filter callback. -/
def isUndefined : JsVal → Bool
  | .prim .undef => true
  | _ => false

/-- Specification helper for `filterMap`: the `CtxError` carried by a
mapped item, if any. -/
def toCtxError? : JsVal → Option JsError
  | .error e => if e.isCtx then some e else none
  | .prim _ => none

/-- Example fixture: the deepest error of the shared-key chain from the
spec (`deep` sets `shared` to `"deep"`). -/
def exDeep : JsError := (err "deep" none).ctx [("shared", JsPrim.str "deep")]

/-- Example fixture: the middle error of the shared-key chain
(`mid` sets `shared` to `"middle"`). -/
def exMid : JsError := (err "mid" (some exDeep)).ctx [("shared", JsPrim.str "middle")]

/-- Example fixture: the top error of the shared-key chain
(`top` sets `shared` to `"top"`). -/
def exTop : JsError := (err "top" (some exMid)).ctx [("shared", JsPrim.str "top")]

/-- Example fixture: deepest error of a chain with a gap (`k` set). -/
def exGapDeep : JsError := (err "deep" none).ctx [("k", JsPrim.str "deep")]

/-- Example fixture: middle error of the gap chain (no context at all). -/
def exGapMid : JsError := err "mid" (some exGapDeep)

/-- Example fixture: top error of the gap chain (`k` set). -/
def exGapTop : JsError := (err "top" (some exGapMid)).ctx [("k", JsPrim.str "top")]

/-- Example fixture: the chain `err("A", err("B", err("C")))`. -/
def exChainABC : JsError := err "A" (some (err "B" (some (err "C" none))))

/-- Example fixture: a foreign error named `CustomError` with message
`"X"`. -/
def exCustomCause : JsError := JsError.mk false "CustomError" "X" none none none

/-- Example fixture: a `CtxError` wrapping the `CustomError`. -/
def exWrapCustom : JsError := err "D" (some exCustomCause)

/-- Example fixture: `err("", new Error(""))`. -/
def exBlank : JsError := err "" (some (newBaseError ""))

/-- Example fixture: the error produced by `err("bad")` in the `filterMap`
example. -/
def exBadErr : JsError := err "bad" none

/-- Example fixture: the input `[1, 2, 3]` of the `filterMap` example. -/
def exItems123 : List JsVal :=
  [JsVal.prim (JsPrim.num 1), JsVal.prim (JsPrim.num 2), JsVal.prim (JsPrim.num 3)]

/-- Example fixture: the callback `i => i === 2 ? err("bad") : i * 2`. -/
def exDoubleOrBad (x : JsVal) (_i : Nat) : JsVal :=
  match x with
  | .prim (.num 2) => JsVal.error exBadErr
  | .prim (.num n) => JsVal.prim (JsPrim.num (2 * n))
  | v => v

theorem JsError.depth_lt_of_cause {e c : JsError} (h : e.cause = some c) :
    c.depth < e.depth := by
  cases e with
  | mk b n m ctx cz st =>
    cases cz with
    | none => simp [JsError.cause] at h
    | some c2 =>
      simp [JsError.cause] at h
      subst h
      simp [JsError.depth]

/-- Induction along the cause chain. -/
theorem JsError.causeRec {P : JsError → Prop}
    (step : ∀ e : JsError, (∀ c : JsError, e.cause = some c → P c) → P e) :
    ∀ e, P e := by
  have H : ∀ n : Nat, ∀ e : JsError, e.depth ≤ n → P e := by
    intro n
    induction n with
    | zero =>
      intro e he
      apply step
      intro c hc
      have := JsError.depth_lt_of_cause hc
      omega
    | succ n ih =>
      intro e he
      apply step
      intro c hc
      have := JsError.depth_lt_of_cause hc
      exact ih c (by omega)
  exact fun e => H e.depth e le_rfl

theorem JsError.get_eq (e : JsError) (key : String) :
    e.get key =
      match e.cause with
      | some c =>
          if c.isCtx then
            (if c.get key ≠ JsPrim.undef then c.get key else ownContextGet e.context key)
          else ownContextGet e.context key
      | none => ownContextGet e.context key := by
  cases e with
  | mk b n m ctx cz st => cases cz <;> rfl

theorem JsError.getAll_eq (e : JsError) (key : String) :
    e.getAll key =
      (match e.ownEntry key with
       | some v => [v]
       | none => []) ++
      (match e.cause with
       | some c => if c.isCtx then c.getAll key else []
       | none => []) := by
  cases e with
  | mk b n m ctx cz st =>
    cases cz <;> cases ctx <;>
      simp only [JsError.getAll, JsError.ownEntry, JsError.cause, JsError.context] <;>
      first
        | rfl
        | (split <;> simp)

theorem JsError.ctxChain_eq (e : JsError) :
    e.ctxChain =
      e :: (match e.cause with
            | some c => if c.isCtx then c.ctxChain else []
            | none => []) := by
  cases e with
  | mk b n m ctx cz st => cases cz <;> rfl

theorem ownContextGet_eq_ownEntry (e : JsError) (key : String) :
    ownContextGet e.context key = (e.ownEntry key).getD JsPrim.undef := by
  cases e with
  | mk b n m ctx cz st =>
    cases ctx <;> simp only [ownContextGet, JsError.ownEntry, JsError.context]
    · rfl
    · split <;> rfl

theorem firstDefined_append (xs ys : List JsPrim) :
    firstDefined (xs ++ ys) =
      if firstDefined xs ≠ JsPrim.undef then firstDefined xs else firstDefined ys := by
  induction xs with
  | nil => simp [firstDefined]
  | cons v vs ih =>
    by_cases hv : v = JsPrim.undef
    · subst hv
      simp [firstDefined, ih]
    · simp [firstDefined, hv]

theorem firstDefined_singleton (v : JsPrim) : firstDefined [v] = v := by
  by_cases hv : v = JsPrim.undef
  · subst hv
    simp [firstDefined]
  · simp [firstDefined, hv]

/-- Characterization of `get`: the deepest chain link whose own context
defines the key wins. -/
theorem get_deepest (e : JsError) :
    ∀ key : String,
      e.get key =
        firstDefined ((e.ctxChain.map (fun x => ownContextGet x.context key)).reverse) := by
  induction e using JsError.causeRec with
  | step e ih =>
    intro key
    rw [JsError.get_eq, JsError.ctxChain_eq]
    cases hcz : e.cause with
    | none =>
      simp [firstDefined_singleton]
    | some c =>
      by_cases hc : c.isCtx = true
      · simp only [hc, if_true, List.map_cons, List.reverse_cons, firstDefined_append,
          ih c hcz key, firstDefined_singleton]
      · simp [hc, firstDefined_singleton]

/-- Characterization of `getAll`: collect, shallowest first, the own-context
entries of every chain link that defines the key. -/
theorem getAll_collects (e : JsError) :
    ∀ key : String,
      e.getAll key = e.ctxChain.filterMap (fun x => x.ownEntry key) := by
  induction e using JsError.causeRec with
  | step e ih =>
    intro key
    rw [JsError.getAll_eq, JsError.ctxChain_eq]
    cases hcz : e.cause with
    | none =>
      simp only [List.filterMap_cons, List.filterMap_nil]
      cases h : e.ownEntry key <;> simp
    | some c =>
      by_cases hc : c.isCtx = true
      · simp only [hc, if_true, List.filterMap_cons, ih c hcz key]
        cases h : e.ownEntry key <;> simp
      · simp only [hc, if_false, List.filterMap_cons, List.filterMap_nil]
        cases h : e.ownEntry key <;> simp

theorem string_length_pos_of_ne_empty (s : String) (h : s ≠ "") : 0 < s.length := by
  rw [← String.length_data]
  cases hd : s.data with
  | nil => exact absurd (String.ext (hd.trans (by rfl))) h
  | cons c cs => simp

theorem joinSep_length_pos (sep : String) (l : List String) (hne : l ≠ [])
    (hall : ∀ s ∈ l, s ≠ "") : 0 < (joinSep sep l).length := by
  induction l with
  | nil => exact absurd rfl hne
  | cons s t ih =>
    have hs : 0 < s.length := string_length_pos_of_ne_empty s (hall s (by simp))
    cases t with
    | nil => simpa [joinSep] using hs
    | cons s2 t2 =>
      simp only [joinSep, String.length_append]
      omega

theorem map_trim_filter_of_clean (l : List String)
    (h : ∀ s ∈ l, jsTrim s = s ∧ s ≠ "") :
    (l.map jsTrim).filter (fun s => s != "") = l := by
  induction l with
  | nil => rfl
  | cons s t ih =>
    obtain ⟨h1, h2⟩ := h s (by simp)
    simp only [List.map_cons, List.filter_cons, h1, h2, bne_iff_ne, ne_eq,
      not_false_eq_true, if_true]
    exact congrArg (s :: ·) (ih (fun x hx => h x (by simp [hx])))

theorem hasOwn_iff_find? (m : Context) (k : String) :
    m.hasOwn k = true ↔ (m.find? (fun p => p.1 == k)).isSome := by
  unfold Context.hasOwn
  rw [List.any_eq_true, List.find?_isSome]

theorem hasOwn_cons (p : String × JsPrim) (t : Context) (k : String) :
    Context.hasOwn (p :: t) k = ((p.1 == k) || Context.hasOwn t k) := by
  simp [Context.hasOwn]

theorem getVal_cons (p : String × JsPrim) (t : Context) (k : String) :
    Context.getVal (p :: t) k
      = if (p.1 == k) = true then p.2 else Context.getVal t k := by
  simp only [Context.getVal, List.find?_cons]
  cases hp : (p.1 == k) <;> simp [hp]

theorem getVal_eq_undef_of_hasOwn_false (m : Context) (k : String)
    (h : Context.hasOwn m k = false) : Context.getVal m k = JsPrim.undef := by
  have hf : m.find? (fun p => p.1 == k) = none := by
    cases hf : m.find? (fun p => p.1 == k) with
    | none => rfl
    | some p =>
      have : Context.hasOwn m k = true := by
        rw [hasOwn_iff_find?, hf]
        rfl
      rw [this] at h
      exact absurd h (by simp)
  simp [Context.getVal, hf]

theorem upd_fst (b : Context) (p : String × JsPrim) :
    (if Context.hasOwn b p.1 then (p.1, Context.getVal b p.1) else p).1 = p.1 := by
  cases hb : Context.hasOwn b p.1 <;> simp [hb]

theorem hasOwn_map_upd (a b : Context) (k : String) :
    Context.hasOwn
        (a.map (fun p => if Context.hasOwn b p.1 then (p.1, Context.getVal b p.1) else p)) k
      = Context.hasOwn a k := by
  induction a with
  | nil => rfl
  | cons p t ih => rw [List.map_cons, hasOwn_cons, hasOwn_cons, ih, upd_fst]

theorem hasOwn_filter_notin (a b : Context) (k : String)
    (ha : Context.hasOwn a k = false) :
    Context.hasOwn (b.filter (fun p => !(Context.hasOwn a p.1))) k
      = Context.hasOwn b k := by
  induction b with
  | nil => rfl
  | cons q t ih =>
    rw [List.filter_cons]
    cases hk : Context.hasOwn a q.1 with
    | false =>
      rw [if_pos (by simp [hk])]
      rw [hasOwn_cons, hasOwn_cons, ih]
    | true =>
      have hq : (q.1 == k) = false := by
        cases hq2 : (q.1 == k) with
        | false => rfl
        | true =>
          have hqk : q.1 = k := by simpa using hq2
          rw [hqk] at hk
          rw [hk] at ha
          exact absurd ha (by simp)
      simp only [hk, Bool.not_true]
      rw [if_neg (by simp), ih, hasOwn_cons, hq, Bool.false_or]

theorem hasOwn_append (x y : Context) (k : String) :
    Context.hasOwn (x ++ y) k = (Context.hasOwn x k || Context.hasOwn y k) := by
  simp [Context.hasOwn]

theorem getVal_append (x y : Context) (k : String) :
    Context.getVal (x ++ y) k
      = if Context.hasOwn x k = true then Context.getVal x k else Context.getVal y k := by
  cases hx : Context.hasOwn x k with
  | true =>
    obtain ⟨p, hf⟩ : ∃ p, x.find? (fun p => p.1 == k) = some p := by
      have := (hasOwn_iff_find? x k).mp hx
      exact Option.isSome_iff_exists.mp this
    simp [Context.getVal, List.find?_append, hf]
  | false =>
    have hf : x.find? (fun p => p.1 == k) = none := by
      cases hf : x.find? (fun p => p.1 == k) with
      | none => rfl
      | some p =>
        have : Context.hasOwn x k = true := by
          rw [hasOwn_iff_find?, hf]
          rfl
        rw [this] at hx
        exact absurd hx (by simp)
    simp [Context.getVal, List.find?_append, hf]

theorem getVal_map_upd (a b : Context) (k : String)
    (ha : Context.hasOwn a k = true) :
    Context.getVal
        (a.map (fun p => if Context.hasOwn b p.1 then (p.1, Context.getVal b p.1) else p)) k
      = if Context.hasOwn b k = true then Context.getVal b k else Context.getVal a k := by
  induction a with
  | nil => exact absurd ha (by simp [Context.hasOwn])
  | cons p t ih =>
    rw [List.map_cons, getVal_cons, upd_fst]
    cases hp : (p.1 == k) with
    | true =>
      have hpk : p.1 = k := by simpa using hp
      rw [if_pos rfl]
      cases hb : Context.hasOwn b k with
      | true => simp [hpk, hb]
      | false => simp [hpk, hb, getVal_cons, hp]
    | false =>
      rw [hasOwn_cons, hp, Bool.false_or] at ha
      rw [if_neg (by simp), ih ha]
      cases hb : Context.hasOwn b k with
      | true => simp
      | false => simp [getVal_cons, hp]

theorem getVal_filter_notin (a b : Context) (k : String)
    (ha : Context.hasOwn a k = false) :
    Context.getVal (b.filter (fun p => !(Context.hasOwn a p.1))) k
      = Context.getVal b k := by
  induction b with
  | nil => rfl
  | cons q t ih =>
    rw [List.filter_cons]
    cases hk : Context.hasOwn a q.1 with
    | false =>
      rw [if_pos (by simp [hk])]
      rw [getVal_cons, getVal_cons, ih]
    | true =>
      have hq : (q.1 == k) = false := by
        cases hq2 : (q.1 == k) with
        | false => rfl
        | true =>
          have hqk : q.1 = k := by simpa using hq2
          rw [hqk] at hk
          rw [hk] at ha
          exact absurd ha (by simp)
      simp only [hk, Bool.not_true]
      rw [if_neg (by simp), ih, getVal_cons, hq, if_neg (by simp)]

theorem merge_hasOwn (a b : Context) (k : String) :
    Context.hasOwn (Context.merge a b) k
      = (Context.hasOwn a k || Context.hasOwn b k) := by
  simp only [Context.merge]
  rw [hasOwn_append, hasOwn_map_upd]
  cases ha : Context.hasOwn a k with
  | true => simp
  | false => rw [hasOwn_filter_notin a b k ha]

theorem selfAndCauses_eq (e : JsError) :
    e.selfAndCauses = e :: causeLinks e.cause := by
  cases e with
  | mk b n m ctx cz st => cases cz <;> rfl

theorem merge_getVal (a b : Context) (k : String) :
    Context.getVal (Context.merge a b) k
      = if Context.hasOwn b k = true then Context.getVal b k
        else Context.getVal a k := by
  simp only [Context.merge]
  rw [getVal_append, hasOwn_map_upd]
  cases ha : Context.hasOwn a k with
  | true =>
    rw [if_pos rfl]
    exact getVal_map_upd a b k ha
  | false =>
    rw [if_neg (by simp), getVal_filter_notin a b k ha]
    cases hb : Context.hasOwn b k with
    | true => rw [if_pos rfl]
    | false =>
      rw [if_neg (by simp), getVal_eq_undef_of_hasOwn_false a k ha,
        getVal_eq_undef_of_hasOwn_false b k hb]

theorem foldr_partition_values (l : List JsVal) :
    (l.foldr filterMapStep ([], [])).1
      = l.filter (fun x => !(isUndefined x) && !(isErr x)) := by
  induction l with
  | nil => rfl
  | cons x t ih =>
    rw [List.foldr_cons, List.filter_cons]
    cases x with
    | prim p =>
      cases p <;> simp [filterMapStep, isUndefined, isErr, ih]
    | error e =>
      cases he : e.isCtx <;> simp [filterMapStep, isUndefined, isErr, he, ih]

theorem foldr_partition_errors (l : List JsVal) :
    (l.foldr filterMapStep ([], [])).2 = l.filterMap toCtxError? := by
  induction l with
  | nil => rfl
  | cons x t ih =>
    rw [List.foldr_cons, List.filterMap_cons]
    cases x with
    | prim p =>
      cases p <;> simp [filterMapStep, toCtxError?, ih]
    | error e =>
      cases he : e.isCtx <;> simp [filterMapStep, toCtxError?, he, ih]

/-- Claim C1: for a zero-argument synchronous operation, `attempt` returns
a normal completion's value directly; a thrown value is converted to a
`CtxError` whose message chain includes the representation of the thrown
value — for an error-shaped value its `name`/`message`/`cause` are copied
directly, otherwise the message is `String(v)` (a thrown string stays
itself, `null` becomes `"null"`, `undefined` becomes `"undefined"`). -/
theorem c1_attempt_sync_conversion :
    (∀ v : JsVal, attempt (.ret v) = .sync v) ∧
    (∀ orig : JsError,
      attempt (.thrown (.error orig))
          = .sync (.error (convertUnknownErrorToCtxError (.error orig))) ∧
      (convertUnknownErrorToCtxError (.error orig)).isCtx = true ∧
      (convertUnknownErrorToCtxError (.error orig)).name = orig.name ∧
      (convertUnknownErrorToCtxError (.error orig)).message = orig.message ∧
      (convertUnknownErrorToCtxError (.error orig)).cause = orig.cause ∧
      (∀ s : String, orig.stack = some s → s ≠ "" →
        (convertUnknownErrorToCtxError (.error orig)).stack = some s) ∧
      orig.message ∈ msgChainSegments (convertUnknownErrorToCtxError (.error orig))) ∧
    (∀ v : JsVal, (∀ e : JsError, v ≠ .error e) →
      attempt (.thrown v) = .sync (.error (convertUnknownErrorToCtxError v)) ∧
      (convertUnknownErrorToCtxError v).isCtx = true ∧
      (convertUnknownErrorToCtxError v).name = "Error" ∧
      (convertUnknownErrorToCtxError v).message = jsString v ∧
      (convertUnknownErrorToCtxError v).cause = none ∧
      jsString v ∈ msgChainSegments (convertUnknownErrorToCtxError v)) ∧
    (∀ s : String, jsString (.prim (.str s)) = s) ∧
    jsString (.prim .null) = "null" ∧
    jsString (.prim .undef) = "undefined" := by
  refine ⟨fun v => rfl, ?_, ?_, fun s => rfl, rfl, rfl⟩
  · intro orig
    refine ⟨rfl, rfl, rfl, rfl, rfl, ?_, ?_⟩
    · intro s hs hne
      have hstack : orig.stack = some s := hs
      simp only [convertUnknownErrorToCtxError, newCtxError, JsError.stack] at *
      rw [hstack]
      simp [hne]
    · show orig.message ∈ _ :: _
      exact List.mem_cons_self _ _
  · intro v h
    cases v with
    | error e => exact absurd rfl (h e)
    | prim p =>
      refine ⟨rfl, rfl, rfl, rfl, rfl, ?_⟩
      show jsString (.prim p) ∈ _ :: _
      exact List.mem_cons_self _ _

/-- Witness for C1 at concrete thrown values: a thrown string and a thrown
`null`. -/
theorem c1_attempt_sync_conversion_witness :
    attempt (.thrown (.prim (.str "string error")))
        = .sync (.error (convertUnknownErrorToCtxError (.prim (.str "string error")))) ∧
    (convertUnknownErrorToCtxError (.prim (.str "string error"))).message
        = "string error" ∧
    (convertUnknownErrorToCtxError (.prim .null)).message = "null" := by
  have h1 := c1_attempt_sync_conversion.2.2.1 (.prim (.str "string error"))
    (fun e h => JsVal.noConfusion h)
  have h2 := c1_attempt_sync_conversion.2.2.1 (.prim .null)
    (fun e h => JsVal.noConfusion h)
  exact ⟨h1.1, h1.2.2.2.1, h2.2.2.2.1⟩

/-- Claim C2: `get` prioritizes the deepest chain level that defines the
key — it equals the first defined value of the chain's own-context
lookups read from deepest to shallowest; in the `top → mid → deep` chain
each setting `shared`, `top.get "shared"` is `"deep"`. -/
theorem c2_get_prioritizes_deepest :
    (∀ (e : JsError) (key : String),
      e.get key =
        firstDefined ((e.ctxChain.map (fun x => ownContextGet x.context key)).reverse)) ∧
    exTop.get "shared" = JsPrim.str "deep" :=
  ⟨fun e key => get_deepest e key, rfl⟩

/-- Claim C5: `getAll` collects, in order from shallowest to deepest, the
own-context entries of every `CtxError` chain link that defines the key,
skipping links that lack it without stopping; the shared-key chain yields
`["top", "middle", "deep"]` and a chain whose middle link lacks the key
yields `["top", "deep"]`. -/
theorem c5_getAll_shallow_to_deep :
    (∀ (e : JsError) (key : String),
      e.getAll key = e.ctxChain.filterMap (fun x => x.ownEntry key)) ∧
    exTop.getAll "shared"
        = [JsPrim.str "top", JsPrim.str "middle", JsPrim.str "deep"] ∧
    exGapTop.getAll "k" = [JsPrim.str "top", JsPrim.str "deep"] :=
  ⟨fun e key => getAll_collects e key, rfl, rfl⟩

/-- Claim C8: `attempt` never lets an exception escape — every
synchronous throw and every rejection of a returned thenable, for every
value in the modelled universe, is caught and normalized into the error
branch of the `Result`, and non-throwing outcomes pass through as the
success branch. -/
theorem c8_attempt_total_conversion :
    ∀ v : JsVal,
      attempt (.thrown v) = .sync (.error (convertUnknownErrorToCtxError v)) ∧
      attempt (.retThenable (.rejected v))
          = .async (.error (convertUnknownErrorToCtxError v)) ∧
      (convertUnknownErrorToCtxError v).isCtx = true ∧
      isErr (.error (convertUnknownErrorToCtxError v)) = true ∧
      attempt (.ret v) = .sync v ∧
      attempt (.retThenable (.resolved v)) = .async v := by
  intro v
  refine ⟨rfl, rfl, ?_, ?_, rfl, rfl⟩ <;> cases v <;> rfl

/-- Claim C10: with the bare-union `Result`, an operation that completes
normally returning a `CtxError` instance yields that value unchanged from
`attempt`, and `isErr` is true on it — indistinguishable from a failure. -/
theorem c10_returned_ctxerror_is_error_branch :
    ∀ e : JsError, e.isCtx = true →
      attempt (.ret (.error e)) = .sync (.error e) ∧ isErr (.error e) = true := by
  intro e h
  exact ⟨rfl, h⟩

/-- Witness for C10 at a concrete `CtxError` returned as a success
value. -/
theorem c10_returned_ctxerror_is_error_branch_witness :
    attempt (.ret (.error (err "oops" none))) = .sync (.error (err "oops" none)) ∧
    isErr (.error (err "oops" none)) = true :=
  c10_returned_ctxerror_is_error_branch (err "oops" none) rfl

/-- Claim C3: `messageChain` joins the chain's segments with `" -> "`, in
order from this error's own message down to the deepest cause, each
cause's segment being its message prefixed with `"<name>: "` exactly when
its name is neither `"Error"` nor `"CtxError"` (stated for chains whose
segments survive the blank filter unchanged). -/
theorem c3_messageChain_joins_segments :
    (∀ e : JsError,
      (∀ s ∈ msgChainSegments e, jsTrim s = s ∧ s ≠ "") →
      e.messageChain = joinSep " -> " (msgChainSegments e)) ∧
    (∀ e : JsError,
      msgChainSegments e
        = e.message :: (causeLinks e.cause).map prependErrorNameToMessage) ∧
    (∀ c : JsError,
      prependErrorNameToMessage c
        = if c.name ≠ "Error" ∧ c.name ≠ "CtxError"
          then c.name ++ ": " ++ c.message else c.message) := by
  refine ⟨?_, fun e => rfl, ?_⟩
  · intro e h
    simp only [JsError.messageChain]
    rw [map_trim_filter_of_clean _ h]
    rw [show msgChainSegments e = e.message :: _ from rfl]
    rw [if_neg (by simp)]
  · intro c
    by_cases h1 : c.name = "Error"
    · simp [prependErrorNameToMessage, h1]
    · by_cases h2 : c.name = "CtxError" <;>
        simp [prependErrorNameToMessage, h1, h2]

/-- Witness for C3: `err("A", err("B", err("C")))` formats as
`"A -> B -> C"`, and a `CustomError` cause renders with its name
prefix. -/
theorem c3_messageChain_joins_segments_witness :
    exChainABC.messageChain = "A -> B -> C" ∧
    exWrapCustom.messageChain = "D -> CustomError: X" ∧
    prependErrorNameToMessage exCustomCause = "CustomError: X" := by
  refine ⟨?_, ?_, ?_⟩
  · exact (c3_messageChain_joins_segments.1 exChainABC (by decide)).trans rfl
  · exact (c3_messageChain_joins_segments.1 exWrapCustom (by decide)).trans rfl
  · exact (c3_messageChain_joins_segments.2.2 exCustomCause).trans rfl

/-- Claim C4: `messageChain` drops blank/whitespace-only segments and
falls back to the literal `"Unknown error"` when every segment is blank,
so the formatted message is always non-empty. -/
theorem c4_messageChain_nonempty_fallback :
    (∀ e : JsError, 0 < e.messageChain.length) ∧
    (∀ e : JsError,
      ((msgChainSegments e).map jsTrim).filter (fun s => s != "") ≠ [] →
      e.messageChain
        = joinSep " -> " (((msgChainSegments e).map jsTrim).filter (fun s => s != ""))) ∧
    (∀ e : JsError, (∀ s ∈ msgChainSegments e, jsTrim s = "") →
      e.messageChain = "Unknown error") := by
  refine ⟨?_, ?_, ?_⟩
  · intro e
    simp only [JsError.messageChain]
    cases hf : ((msgChainSegments e).map jsTrim).filter (fun s => s != "") with
    | nil => decide
    | cons s t =>
      rw [if_neg (by simp)]
      apply joinSep_length_pos
      · simp
      · intro x hx
        rw [← hf] at hx
        have hmem := List.mem_filter.mp hx
        simpa using hmem.2
  · intro e h
    simp only [JsError.messageChain]
    rw [if_neg (by simpa [List.isEmpty_iff] using h)]
  · intro e h
    simp only [JsError.messageChain]
    have hf : ((msgChainSegments e).map jsTrim).filter (fun s => s != "") = [] := by
      rw [List.filter_eq_nil_iff]
      intro s hs
      obtain ⟨x, hx, rfl⟩ := List.mem_map.mp hs
      simp [h x hx]
    rw [hf]
    rfl

/-- Witness for C4: `err("", new Error(""))` formats as
`"Unknown error"`, and a whitespace-only own message is filtered out of a
mixed chain. -/
theorem c4_messageChain_nonempty_fallback_witness :
    exBlank.messageChain = "Unknown error" ∧
    (err "  " (some (newBaseError "B"))).messageChain = "B" := by
  constructor
  · exact c4_messageChain_nonempty_fallback.2.2 exBlank (by decide)
  · exact (c4_messageChain_nonempty_fallback.2.1 (err "  " (some (newBaseError "B")))
      (by decide)).trans rfl

/-- Claim C6: a context entry holding a falsy value (`0`, `""`, `false`,
`null`, `undefined`) counts as present — presence is key existence, not
truthiness: `get` and `getAll` return the stored value, and a defined
falsy value stored deep in the chain still shadows a shallower value in
`get`. -/
theorem c6_falsy_context_present :
    (∀ (nm msg k : String) (v : JsPrim) (st : Option String),
      (JsError.mk true nm msg (some [(k, v)]) none st).get k = v ∧
      (JsError.mk true nm msg (some [(k, v)]) none st).getAll k = [v]) ∧
    (∀ (k : String) (v w : JsPrim), v ≠ JsPrim.undef →
      (JsError.mk true "CtxError" "top" (some [(k, w)])
          (some (JsError.mk true "CtxError" "deep" (some [(k, v)]) none none))
          none).get k = v ∧
      (JsError.mk true "CtxError" "top" (some [(k, w)])
          (some (JsError.mk true "CtxError" "deep" (some [(k, v)]) none none))
          none).getAll k = [w, v]) := by
  constructor
  · intro nm msg k v st
    constructor
    · simp [JsError.get, ownContextGet, Context.hasOwn, Context.getVal]
    · simp [JsError.getAll, Context.hasOwn, Context.getVal]
  · intro k v w hv
    have h1 : Context.hasOwn [(k, v)] k = true := by simp [Context.hasOwn]
    have h2 : Context.getVal [(k, v)] k = v := by simp [Context.getVal]
    constructor
    · simp [JsError.get, JsError.isCtx, ownContextGet, h1, h2, hv]
    · simp [JsError.getAll, JsError.isCtx, Context.hasOwn, Context.getVal]

/-- Witness for C6: a deep falsy `0` is found and shadows a shallower
string in `get`, and both falsy entries appear in `getAll`. -/
theorem c6_falsy_context_present_witness :
    (JsError.mk true "CtxError" "top" (some [("n", JsPrim.str "shallow")])
        (some (JsError.mk true "CtxError" "deep" (some [("n", JsPrim.num 0)]) none none))
        none).get "n" = JsPrim.num 0 ∧
    (JsError.mk true "CtxError" "top" (some [("n", JsPrim.str "shallow")])
        (some (JsError.mk true "CtxError" "deep" (some [("n", JsPrim.num 0)]) none none))
        none).getAll "n" = [JsPrim.str "shallow", JsPrim.num 0] :=
  c6_falsy_context_present.2 "n" (JsPrim.num 0) (JsPrim.str "shallow") (by decide)

/-- Claim C7: `filterMap` partitions the mapped results in input order —
`undefined` results are dropped from both outputs, `CtxError` results go
to `errors`, everything else is kept contiguously in `values`, and
`errors` is absent (`none`) rather than empty when no error occurred; the
`[1,2,3]` example yields values `[2,6]` and errors `[err "bad"]`. -/
theorem c7_filterMap_partition :
    (∀ (items : List JsVal) (fn : JsVal → Nat → JsVal),
      (filterMap items fn).values
          = (mapWithIndex fn items 0).filter
              (fun x => !(isUndefined x) && !(isErr x)) ∧
      (filterMap items fn).errors
          = (if ((mapWithIndex fn items 0).filterMap toCtxError?).isEmpty then none
             else some ((mapWithIndex fn items 0).filterMap toCtxError?)) ∧
      ((filterMap items fn).errors = none ↔
        ∀ x ∈ mapWithIndex fn items 0, toCtxError? x = none)) ∧
    (filterMap exItems123 exDoubleOrBad).values
        = [JsVal.prim (JsPrim.num 2), JsVal.prim (JsPrim.num 6)] ∧
    (filterMap exItems123 exDoubleOrBad).errors = some [exBadErr] := by
  refine ⟨?_, rfl, rfl⟩
  intro items fn
  have hv := foldr_partition_values (mapWithIndex fn items 0)
  have he := foldr_partition_errors (mapWithIndex fn items 0)
  refine ⟨?_, ?_, ?_⟩
  · simpa [filterMap, handleItems] using hv
  · simp only [filterMap, handleItems, he]
    cases hes : (mapWithIndex fn items 0).filterMap toCtxError? with
    | nil => simp
    | cons x t => simp
  · simp only [filterMap, handleItems, he]
    cases hes : (mapWithIndex fn items 0).filterMap toCtxError? with
    | nil =>
      simp only [List.length_nil, gt_iff_lt, Nat.lt_irrefl, if_false]
      constructor
      · intro _
        intro x hx
        have := List.filterMap_eq_nil_iff.mp hes
        exact this x hx
      · intro _
        trivial
    | cons x t =>
      simp only [List.length_cons]
      constructor
      · intro hcontra
        exact absurd hcontra (by simp)
      · intro hall
        have : (mapWithIndex fn items 0).filterMap toCtxError? = [] :=
          List.filterMap_eq_nil_iff.mpr hall
        rw [this] at hes
        exact absurd hes (by simp)

/-- Claim C9: `ctx` merges the given context over the existing one — new
values win on key collision, new keys are added — leaving every other
field of the error unchanged (the state-passing rendering of
mutate-in-place-and-return-`this`), and it is total;
`err("m").ctx(a:1).ctx(a:2)` ends with context `a:2`. -/
theorem c9_ctx_merges_last_write_wins :
    (∀ (e : JsError) (c : Context),
      (e.ctx c).isCtx = e.isCtx ∧ (e.ctx c).name = e.name ∧
      (e.ctx c).message = e.message ∧ (e.ctx c).cause = e.cause ∧
      (e.ctx c).stack = e.stack) ∧
    (∀ (e : JsError) (c : Context) (k : String),
      Context.hasOwn (((e.ctx c).context).getD []) k
          = (Context.hasOwn (e.context.getD []) k || Context.hasOwn c k) ∧
      Context.getVal (((e.ctx c).context).getD []) k
          = if Context.hasOwn c k = true then Context.getVal c k
            else Context.getVal (e.context.getD []) k) ∧
    (((err "m" none).ctx [("a", JsPrim.num 1)]).ctx [("a", JsPrim.num 2)]).context
        = some [("a", JsPrim.num 2)] := by
  refine ⟨?_, ?_, rfl⟩
  · intro e c
    exact ⟨rfl, rfl, rfl, rfl, rfl⟩
  · intro e c k
    have hctx : ((e.ctx c).context).getD [] = Context.merge (e.context.getD []) c := rfl
    rw [hctx]
    exact ⟨merge_hasOwn _ _ _, merge_getVal _ _ _⟩

end TsExplicitErrors
